import Mathlib

/-!
Shallow embedding of src/js/app.js (browser task/project tracker).

The JS classes GerenciadorArmazenamento, GerenciadorTarefas and
GerenciadorProjetos are modelled as pure Lean functions over explicit
state.  DOM access is replaced by explicit parameters (the form field
values, the confirmation dialog answer, the freshly generated id and the
current timestamp), and localStorage by an explicit association list.
-/

/-- Priority of a task.  The form select (index.html) only offers the
values "alta", "media", "baixa", matching the enum of the data model
{low, medium, high}; we model the field as this three-valued enum.
Its JSON/string representation is prioridadeParaTexto. -/
inductive Prioridade where
  | alta
  | media
  | baixa
deriving DecidableEq, Repr

/-- String representation of a priority, as it appears in the DOM values
and in the JSON documents stored by JSON.stringify. -/
def prioridadeParaTexto : Prioridade → String
  | .alta => "alta"
  | .media => "media"
  | .baixa => "baixa"

/-- Inverse reading of a priority string. -/
def textoParaPrioridade : String → Option Prioridade
  | "alta" => some .alta
  | "media" => some .media
  | "baixa" => some .baixa
  | _ => none

/-- A task record, exactly the object built in
GerenciadorTarefas.salvarTarefa: id, titulo, descricao, dataVencimento,
prioridade, projetoId (null modelled as none), concluida, dataCriacao. -/
structure Tarefa where
  id : String
  titulo : String
  descricao : String
  dataVencimento : String
  prioridade : Prioridade
  projetoId : Option String
  concluida : Bool
  dataCriacao : String
deriving DecidableEq, Repr

/-- A project record, exactly the object built in
GerenciadorProjetos.adicionarProjeto. -/
structure Projeto where
  id : String
  nome : String
  dataCriacao : String
deriving DecidableEq, Repr

/-! ## Storage adapter (GerenciadorArmazenamento)

localStorage holds strings; the stored string either parses back to a
JSON value (Conteudo.valido) or JSON.parse throws on it
(Conteudo.invalido).  JSON.stringify/JSON.parse on the acyclic
string/bool/null/array/object values used here are exact inverses, so we
represent a stored serialized string by the JSON document it denotes. -/

/-- JSON values, the image of JS objects under JSON.stringify/parse. -/
inductive Json where
  | null
  | bool (b : Bool)
  | str (s : String)
  | arr (elems : List Json)
  | obj (campos : List (String × Json))

/-- Content found under a key in localStorage: a string that
deserializes to a JSON value, or a corrupt string JSON.parse rejects. -/
inductive Conteudo where
  | valido (j : Json)
  | invalido

/-- The localStorage state: bindings from keys to stored contents.
Lookup takes the most recent binding, so consing models setItem. -/
def Armazenamento := List (String × Conteudo)

/-- localStorage.getItem: first (most recent) binding for the key. -/
def obterItem (chave : String) : Armazenamento → Option Conteudo
  | [] => none
  | (k, v) :: resto => if k == chave then some v else obterItem chave resto

/-- localStorage.setItem: bind the key to the new content. -/
def definirItem (chave : String) (v : Conteudo) (st : Armazenamento) : Armazenamento :=
  (chave, v) :: st

/-- GerenciadorArmazenamento.salvar: JSON.stringify the data and write it
under the key.  The try/catch swallows stringify/setItem failures, logs
and discards the write; the sucesso flag selects which branch ran. -/
def GerenciadorArmazenamento.salvar (chave : String) (dados : Json) (sucesso : Bool)
    (st : Armazenamento) : Armazenamento :=
  if sucesso then definirItem chave (Conteudo.valido dados) st else st

/-- GerenciadorArmazenamento.carregar: getItem then JSON.parse; returns
valorPadrao when the key is absent, and (after logging) when the read
throws (leituraOk = false) or the stored string fails to parse.  The
function is total: no failure propagates to the caller. -/
def GerenciadorArmazenamento.carregar (chave : String) (valorPadrao : Json)
    (leituraOk : Bool) (st : Armazenamento) : Json :=
  if leituraOk then
    match obterItem chave st with
    | none => valorPadrao
    | some (Conteudo.valido j) => j
    | some Conteudo.invalido => valorPadrao
  else valorPadrao

/-- JSON document of a task, with the field layout of the object literal
in salvarTarefa (JSON.stringify preserves it). -/
def Tarefa.paraJson (t : Tarefa) : Json :=
  .obj [("id", .str t.id),
        ("titulo", .str t.titulo),
        ("descricao", .str t.descricao),
        ("dataVencimento", .str t.dataVencimento),
        ("prioridade", .str (prioridadeParaTexto t.prioridade)),
        ("projetoId", match t.projetoId with | some p => .str p | none => .null),
        ("concluida", .bool t.concluida),
        ("dataCriacao", .str t.dataCriacao)]

/-- Reading a task back from its JSON document (the parsed JS object is
used directly as the task). -/
def Tarefa.deJson : Json → Option Tarefa
  | .obj [("id", .str id), ("titulo", .str titulo), ("descricao", .str descricao),
          ("dataVencimento", .str dataVencimento), ("prioridade", .str pr),
          ("projetoId", pj), ("concluida", .bool concluida),
          ("dataCriacao", .str dataCriacao)] =>
      match textoParaPrioridade pr, pj with
      | some prioridade, .null =>
          some ⟨id, titulo, descricao, dataVencimento, prioridade, none, concluida, dataCriacao⟩
      | some prioridade, .str s =>
          some ⟨id, titulo, descricao, dataVencimento, prioridade, some s, concluida, dataCriacao⟩
      | _, _ => none
  | _ => none

/-- JSON document of the whole task list (the array salvarTarefas
stringifies). -/
def tarefasParaJson (ts : List Tarefa) : Json :=
  .arr (ts.map Tarefa.paraJson)

/-- Reading a list of task documents back. -/
def listaTarefasDeJson : List Json → Option (List Tarefa)
  | [] => some []
  | j :: resto =>
      match Tarefa.deJson j, listaTarefasDeJson resto with
      | some t, some ts => some (t :: ts)
      | _, _ => none

/-- Reading the stored task-list document back. -/
def tarefasDeJson : Json → Option (List Tarefa)
  | .arr js => listaTarefasDeJson js
  | _ => none

theorem Tarefa.deJson_paraJson (t : Tarefa) : Tarefa.deJson t.paraJson = some t := by
  obtain ⟨id, titulo, descricao, dataVencimento, prioridade, projetoId, concluida, dataCriacao⟩ := t
  cases prioridade <;> cases projetoId <;> rfl

theorem tarefasDeJson_paraJson (ts : List Tarefa) : tarefasDeJson (tarefasParaJson ts) = some ts := by
  induction ts with
  | nil => rfl
  | cons t resto ih =>
      simp only [tarefasParaJson, tarefasDeJson, List.map_cons, listaTarefasDeJson,
        Tarefa.deJson_paraJson]
      simp only [tarefasParaJson, tarefasDeJson] at ih
      rw [ih]

/-- C8: saving the task list under a key and then loading that key (with
storage working) returns the very document that was saved, and reading
it back as a task list reproduces the original list: same ids, same
field values, same order. -/
theorem salvar_carregar_tarefas (ts : List Tarefa) (chave : String) (valorPadrao : Json)
    (st : Armazenamento) :
    GerenciadorArmazenamento.carregar chave valorPadrao true
        (GerenciadorArmazenamento.salvar chave (tarefasParaJson ts) true st)
      = tarefasParaJson ts
    ∧ tarefasDeJson (GerenciadorArmazenamento.carregar chave valorPadrao true
        (GerenciadorArmazenamento.salvar chave (tarefasParaJson ts) true st))
      = some ts := by
  have h : GerenciadorArmazenamento.carregar chave valorPadrao true
      (GerenciadorArmazenamento.salvar chave (tarefasParaJson ts) true st)
      = tarefasParaJson ts := by
    simp [GerenciadorArmazenamento.carregar, GerenciadorArmazenamento.salvar,
      definirItem, obterItem]
  exact ⟨h, by rw [h]; exact tarefasDeJson_paraJson ts⟩

/-- C9: carregar returns the default when the key is absent, when the
stored string fails to deserialize, and when the read itself fails; the
failure is never raised (carregar is a total function). -/
theorem carregar_valorPadrao (chave : String) (valorPadrao : Json) (st : Armazenamento) :
    (obterItem chave st = none →
        GerenciadorArmazenamento.carregar chave valorPadrao true st = valorPadrao)
    ∧ (obterItem chave st = some Conteudo.invalido →
        GerenciadorArmazenamento.carregar chave valorPadrao true st = valorPadrao)
    ∧ GerenciadorArmazenamento.carregar chave valorPadrao false st = valorPadrao := by
  refine ⟨fun h => ?_, fun h => ?_, rfl⟩
  · simp [GerenciadorArmazenamento.carregar, h]
  · simp [GerenciadorArmazenamento.carregar, h]

/-- Witness for C9 at a concrete store. -/
theorem carregar_valorPadrao_witness :
    GerenciadorArmazenamento.carregar "tarefas" Json.null true [("outra", Conteudo.invalido)]
      = Json.null
    ∧ GerenciadorArmazenamento.carregar "projetos" Json.null true
        [("projetos", Conteudo.invalido)] = Json.null := by
  constructor
  · exact (carregar_valorPadrao "tarefas" Json.null [("outra", Conteudo.invalido)]).1 (by rfl)
  · exact (carregar_valorPadrao "projetos" Json.null [("projetos", Conteudo.invalido)]).2.1 (by rfl)

/-! ## Task store (GerenciadorTarefas) -/

/-- String.prototype.trim: strip leading and trailing whitespace
(defined on the character list so that it evaluates by reduction). -/
def aparar (s : String) : String :=
  String.mk (((s.data.dropWhile Char.isWhitespace).reverse.dropWhile Char.isWhitespace).reverse)

/-- String.prototype.toLowerCase (ASCII case mapping, which covers the
names this app compares; defined on the character list so that it
evaluates by reduction). -/
def minusculas (s : String) : String :=
  String.mk (s.data.map Char.toLower)

/-- The values read from the task form fields in salvarTarefa. -/
structure FormularioTarefa where
  titulo : String
  descricao : String
  dataVencimento : String
  prioridade : Prioridade
  projetoId : String
deriving DecidableEq, Repr

/-- Result of salvarTarefa: the new task list, whether a validation
alert was shown, and whether salvarTarefas persisted the list. -/
structure ResultadoSalvar where
  tarefas : List Tarefa
  erroValidacao : Bool
  persistiu : Bool
deriving DecidableEq, Repr

/-- findIndex by id followed by assignment at that index: replace the
first task whose id matches, leave the list unchanged when none does. -/
def atualizarPrimeira (id : String) (f : Tarefa → Tarefa) : List Tarefa → List Tarefa
  | [] => []
  | t :: resto =>
      if t.id == id then f t :: resto else t :: atualizarPrimeira id f resto

/-- GerenciadorTarefas.salvarTarefa.  editando is the id of
tarefaEditando (none in creation mode), novoId the id gerarId would
produce, agora the current ISO timestamp.  An empty trimmed title
aborts with an alert; otherwise the dadosTarefa object (which always
carries concluida = false and dataCriacao = agora) is spread over the
edited task, or pushed with a fresh id. -/
def salvarTarefa (editando : Option String) (f : FormularioTarefa)
    (novoId agora : String) (tarefas : List Tarefa) : ResultadoSalvar :=
  let titulo := aparar f.titulo
  if titulo = "" then
    ⟨tarefas, true, false⟩
  else
    let descricao := aparar f.descricao
    let projetoId : Option String := if f.projetoId = "" then none else some f.projetoId
    match editando with
    | some eid =>
        ⟨atualizarPrimeira eid
            (fun t => { t with
              titulo := titulo, descricao := descricao,
              dataVencimento := f.dataVencimento, prioridade := f.prioridade,
              projetoId := projetoId, concluida := false, dataCriacao := agora })
            tarefas,
          false, true⟩
    | none =>
        ⟨tarefas ++ [⟨novoId, titulo, descricao, f.dataVencimento, f.prioridade,
            projetoId, false, agora⟩],
          false, true⟩

/-- GerenciadorTarefas.alternarConclusao: flip concluida on the first
task whose id matches; no-op when none does. -/
def alternarConclusao (id : String) : List Tarefa → List Tarefa
  | [] => []
  | t :: resto =>
      if t.id == id then { t with concluida := !t.concluida } :: resto
      else t :: alternarConclusao id resto

/-- The switch on filtroAtivo in obterTarefasFiltradas. -/
def filtroStatus (filtroAtivo : String) (ts : List Tarefa) : List Tarefa :=
  match filtroAtivo with
  | "pendentes" => ts.filter (fun t => !t.concluida)
  | "concluidas" => ts.filter (fun t => t.concluida)
  | "alta" => ts.filter (fun t => t.prioridade == Prioridade.alta)
  | "media" => ts.filter (fun t => t.prioridade == Prioridade.media)
  | "baixa" => ts.filter (fun t => t.prioridade == Prioridade.baixa)
  | _ => ts

/-- GerenciadorTarefas.obterTarefasFiltradas: restrict to the active
project unless it is the "todos" sentinel, then apply the status or
priority filter. -/
def obterTarefasFiltradas (projetoAtivo filtroAtivo : String) (ts : List Tarefa) : List Tarefa :=
  let base := if projetoAtivo ≠ "todos"
    then ts.filter (fun t => t.projetoId == some projetoAtivo)
    else ts
  filtroStatus filtroAtivo base

theorem alternar_nao_encontrada (id : String) :
    ∀ ts : List Tarefa, (∀ t ∈ ts, t.id ≠ id) → alternarConclusao id ts = ts := by
  intro ts h
  induction ts with
  | nil => rfl
  | cons t resto ih =>
      have ht : (t.id == id) = false := by
        simp [h t (List.mem_cons_self t resto)]
      simp [alternarConclusao, ht, ih fun u hu => h u (List.mem_cons_of_mem t hu)]

theorem alternar_decomp (id : String) (pre : List Tarefa) (t : Tarefa) (post : List Tarefa)
    (hpre : ∀ u ∈ pre, u.id ≠ id) (ht : t.id = id) :
    alternarConclusao id (pre ++ t :: post)
      = pre ++ { t with concluida := !t.concluida } :: post := by
  induction pre with
  | nil => simp [alternarConclusao, ht]
  | cons u resto ih =>
      have hu : (u.id == id) = false := by
        simp [hpre u (List.mem_cons_self u resto)]
      simp [alternarConclusao, hu]
      exact ih fun v hv => hpre v (List.mem_cons_of_mem u hv)

theorem alternar_involutiva (id : String) :
    ∀ ts : List Tarefa, alternarConclusao id (alternarConclusao id ts) = ts
  | [] => rfl
  | t :: resto => by
      cases h : t.id == id with
      | true =>
          simp [alternarConclusao, h, Bool.not_not]
      | false =>
          simp [alternarConclusao, h, alternar_involutiva id resto]

/-- C7: toggling a task twice restores the list exactly (so the
completed flag of the task returns to its original value and nothing
else ever changed); toggling an id not in the list is a no-op; one
toggle flips only the concluida field of the matched task, all other
tasks untouched. -/
theorem alternar_conclusao_espec (id : String) (ts : List Tarefa) :
    alternarConclusao id (alternarConclusao id ts) = ts
    ∧ ((∀ t ∈ ts, t.id ≠ id) → alternarConclusao id ts = ts)
    ∧ (∀ pre t post, ts = pre ++ t :: post → (∀ u ∈ pre, u.id ≠ id) → t.id = id →
        alternarConclusao id ts = pre ++ { t with concluida := !t.concluida } :: post) :=
  ⟨alternar_involutiva id ts, alternar_nao_encontrada id ts,
    fun pre t post hts hpre ht => hts ▸ alternar_decomp id pre t post hpre ht⟩

/-- Witness for C7 at a concrete list. -/
theorem alternar_conclusao_espec_witness :
    alternarConclusao "x"
        [⟨"t1", "A", "", "", Prioridade.media, none, false, "d"⟩]
      = [⟨"t1", "A", "", "", Prioridade.media, none, false, "d"⟩]
    ∧ alternarConclusao "t1"
        [⟨"t1", "A", "", "", Prioridade.media, none, false, "d"⟩]
      = [⟨"t1", "A", "", "", Prioridade.media, none, true, "d"⟩] := by
  constructor
  · exact (alternar_conclusao_espec "x"
      [⟨"t1", "A", "", "", Prioridade.media, none, false, "d"⟩]).2.1 (by decide)
  · exact (alternar_conclusao_espec "t1"
      [⟨"t1", "A", "", "", Prioridade.media, none, false, "d"⟩]).2.2
      [] ⟨"t1", "A", "", "", Prioridade.media, none, false, "d"⟩ [] rfl
      (by simp) rfl

/-- C6: submitting a task creation whose title trims to empty shows the
validation alert and returns with the task list exactly unchanged and
nothing persisted. -/
theorem salvar_tarefa_titulo_vazio (f : FormularioTarefa) (novoId agora : String)
    (tarefas : List Tarefa) (h : aparar f.titulo = "") :
    salvarTarefa none f novoId agora tarefas = ⟨tarefas, true, false⟩ := by
  simp [salvarTarefa, h]

/-- Witness for C6: a whitespace-only title. -/
theorem salvar_tarefa_titulo_vazio_witness :
    salvarTarefa none ⟨"   ", "d", "", Prioridade.alta, ""⟩ "t9" "2024-06-01"
        [⟨"t1", "A", "", "", Prioridade.media, none, false, "d"⟩]
      = ⟨[⟨"t1", "A", "", "", Prioridade.media, none, false, "d"⟩], true, false⟩ :=
  salvar_tarefa_titulo_vazio ⟨"   ", "d", "", Prioridade.alta, ""⟩ "t9" "2024-06-01"
    [⟨"t1", "A", "", "", Prioridade.media, none, false, "d"⟩] (by decide)

/-- C1 counterexample: editing task t1 (which is completed, created at
2024-01-01) with a non-empty title resets its completed flag to false
and overwrites its createdAt with the submission time, so the edit does
not leave completed and createdAt unchanged as claimed. -/
theorem edicao_reinicia_conclusao_contraexemplo :
    (⟨"t1", "Antiga", "", "", Prioridade.media, none, true, "2024-01-01"⟩ : Tarefa).concluida
        = true
    ∧ (salvarTarefa (some "t1") ⟨"Nova", "", "", Prioridade.media, ""⟩ "t9" "2024-06-01"
        [⟨"t1", "Antiga", "", "", Prioridade.media, none, true, "2024-01-01"⟩]).tarefas
      = [⟨"t1", "Nova", "", "", Prioridade.media, none, false, "2024-06-01"⟩] := by
  constructor
  · rfl
  · decide

theorem atualizarPrimeira_decomp (id : String) (g : Tarefa → Tarefa)
    (pre : List Tarefa) (t : Tarefa) (post : List Tarefa)
    (hpre : ∀ u ∈ pre, u.id ≠ id) (ht : t.id = id) :
    atualizarPrimeira id g (pre ++ t :: post) = pre ++ g t :: post := by
  induction pre with
  | nil => simp [atualizarPrimeira, ht]
  | cons u resto ih =>
      have hu : (u.id == id) = false := by
        simp [hpre u (List.mem_cons_self u resto)]
      simp [atualizarPrimeira, hu]
      exact ih fun v hv => hpre v (List.mem_cons_of_mem u hv)

/-- C1 amended: an edit with a non-empty title merges the submitted
fields (title, description, dueDate, priority, projectId) into the
matched task and leaves its id and every other task unchanged, but it
also resets the concluida flag of the task to false and overwrites its
dataCriacao with the submission time. -/
theorem edicao_mescla_campos (pre post : List Tarefa) (t : Tarefa) (f : FormularioTarefa)
    (novoId agora : String) (h : aparar f.titulo ≠ "") (hpre : ∀ u ∈ pre, u.id ≠ t.id) :
    salvarTarefa (some t.id) f novoId agora (pre ++ t :: post)
      = ⟨pre ++ { t with
            titulo := aparar f.titulo, descricao := aparar f.descricao,
            dataVencimento := f.dataVencimento, prioridade := f.prioridade,
            projetoId := if f.projetoId = "" then none else some f.projetoId,
            concluida := false, dataCriacao := agora } :: post,
          false, true⟩ := by
  simp only [salvarTarefa, if_neg h]
  rw [atualizarPrimeira_decomp t.id _ pre t post hpre rfl]

/-- Witness for C1 amended at a concrete state. -/
theorem edicao_mescla_campos_witness :
    salvarTarefa (some "t1") ⟨"Nova", " desc ", "2024-12-31", Prioridade.alta, "p1"⟩
        "t9" "2024-06-01"
        [⟨"t0", "Outra", "", "", Prioridade.baixa, none, false, "2023-01-01"⟩,
         ⟨"t1", "Antiga", "", "", Prioridade.media, none, true, "2024-01-01"⟩]
      = ⟨[⟨"t0", "Outra", "", "", Prioridade.baixa, none, false, "2023-01-01"⟩,
          ⟨"t1", "Nova", "desc", "2024-12-31", Prioridade.alta, some "p1", false,
            "2024-06-01"⟩],
          false, true⟩ := by
  have h := edicao_mescla_campos
    [⟨"t0", "Outra", "", "", Prioridade.baixa, none, false, "2023-01-01"⟩] []
    ⟨"t1", "Antiga", "", "", Prioridade.media, none, true, "2024-01-01"⟩
    ⟨"Nova", " desc ", "2024-12-31", Prioridade.alta, "p1"⟩
    "t9" "2024-06-01" (by decide) (by decide)
  simpa using h

/-- C4: with an active project p other than the "todos" sentinel and the
pending filter, the filtered list is exactly the pending tasks of p;
with the sentinel the project restriction is bypassed; in the concrete
"Home" scenario exactly the one pending task "Buy milk" is returned. -/
theorem tarefas_filtradas_espec (p f : String) (ts : List Tarefa) (hp : p ≠ "todos") :
    obterTarefasFiltradas p "pendentes" ts
        = ts.filter (fun t => t.projetoId == some p && !t.concluida)
    ∧ obterTarefasFiltradas "todos" f ts = filtroStatus f ts
    ∧ obterTarefasFiltradas "Home.id" "pendentes"
        [⟨"tarefa_1", "Buy milk", "", "", Prioridade.alta, some "Home.id", false, "d"⟩,
         ⟨"tarefa_2", "Outra", "", "", Prioridade.media, some "Outro.id", false, "d"⟩,
         ⟨"tarefa_3", "Feita", "", "", Prioridade.alta, some "Home.id", true, "d"⟩]
      = [⟨"tarefa_1", "Buy milk", "", "", Prioridade.alta, some "Home.id", false, "d"⟩] := by
  refine ⟨?_, by simp [obterTarefasFiltradas], by decide⟩
  simp only [obterTarefasFiltradas, if_pos hp, filtroStatus, List.filter_filter]
  exact List.filter_congr fun t _ => Bool.and_comm _ _

/-- Witness for C4 at a concrete project id. -/
theorem tarefas_filtradas_espec_witness :
    obterTarefasFiltradas "Home.id" "pendentes"
        [⟨"tarefa_1", "Buy milk", "", "", Prioridade.alta, some "Home.id", false, "d"⟩]
      = [⟨"tarefa_1", "Buy milk", "", "", Prioridade.alta, some "Home.id", false, "d"⟩] := by
  have h := (tarefas_filtradas_espec "Home.id" "todas"
    [⟨"tarefa_1", "Buy milk", "", "", Prioridade.alta, some "Home.id", false, "d"⟩]
    (by decide)).1
  rw [h]
  decide

/-! ## Rendering order (GerenciadorTarefas.renderizarTarefas) -/

/-- The prioridades lookup table in the sort comparator. -/
def valorPrioridade : Prioridade → Int
  | .alta => 3
  | .media => 2
  | .baixa => 1

/-- The comparator passed to Array.prototype.sort in renderizarTarefas:
incomplete before completed, then descending priority value. -/
def comparadorTarefas (a b : Tarefa) : Int :=
  if a.concluida ≠ b.concluida then (if a.concluida then 1 else -1)
  else valorPrioridade b.prioridade - valorPrioridade a.prioridade

/-- The non-strict order induced by the comparator (a sorts no later
than b when the comparator is non-positive). -/
def ordemTarefa (a b : Tarefa) : Bool :=
  decide (comparadorTarefas a b ≤ 0)

/-- Array.prototype.sort is a stable sort (ES2019), modelled by the
stable List.mergeSort under the order of the comparator. -/
def ordenarTarefas (ts : List Tarefa) : List Tarefa :=
  ts.mergeSort ordemTarefa

/-- The list renderizarTarefas displays: the filtered tasks in sorted
order (for the empty list renderizarTarefas skips the sort and shows an
empty state, which coincides with sorting the empty list). -/
def tarefasParaExibir (projetoAtivo filtroAtivo : String) (ts : List Tarefa) : List Tarefa :=
  ordenarTarefas (obterTarefasFiltradas projetoAtivo filtroAtivo ts)

/-- Numeric sort key equivalent to the comparator: completion group
first, then descending priority. -/
def chaveTarefa (t : Tarefa) : Int :=
  (if t.concluida then 3 else 0) + (3 - valorPrioridade t.prioridade)

theorem ordemTarefa_iff (a b : Tarefa) :
    ordemTarefa a b = true ↔ chaveTarefa a ≤ chaveTarefa b := by
  simp only [ordemTarefa, decide_eq_true_eq, comparadorTarefas, chaveTarefa]
  cases ha : a.concluida <;> cases hb : b.concluida <;>
    cases hpa : a.prioridade <;> cases hpb : b.prioridade <;>
      simp [valorPrioridade, ha, hb, hpa, hpb]

theorem ordemTarefa_caracterizacao (a b : Tarefa) :
    ordemTarefa a b = true ↔
      ((a.concluida = false ∧ b.concluida = true)
        ∨ (a.concluida = b.concluida
            ∧ valorPrioridade b.prioridade ≤ valorPrioridade a.prioridade)) := by
  simp only [ordemTarefa, decide_eq_true_eq, comparadorTarefas]
  cases ha : a.concluida <;> cases hb : b.concluida <;>
    cases hpa : a.prioridade <;> cases hpb : b.prioridade <;>
      simp [valorPrioridade, ha, hb, hpa, hpb]

theorem ordemTarefa_trans (a b c : Tarefa) :
    ordemTarefa a b → ordemTarefa b c → ordemTarefa a c := fun hab hbc =>
  (ordemTarefa_iff a c).mpr
    (le_trans ((ordemTarefa_iff a b).mp hab) ((ordemTarefa_iff b c).mp hbc))

theorem ordemTarefa_total (a b : Tarefa) :
    ordemTarefa a b || ordemTarefa b a := by
  rcases le_total (chaveTarefa a) (chaveTarefa b) with h | h
  · simp [(ordemTarefa_iff a b).mpr h]
  · simp [(ordemTarefa_iff b a).mpr h]

/-- C2: the displayed list is a permutation of the filtered list in
which, for every task a rendered before a task b, either a is
incomplete and b completed, or they are in the same completion group
and the priority value of a (alta=3, media=2, baixa=1) is at least
that of b; and
the sort is stable: two tasks with equal completion status and equal
priority keep their relative order from the filtered list. -/
theorem renderizar_ordenacao_espec (projetoAtivo filtroAtivo : String) (ts : List Tarefa) :
    List.Perm (tarefasParaExibir projetoAtivo filtroAtivo ts)
        (obterTarefasFiltradas projetoAtivo filtroAtivo ts)
    ∧ (tarefasParaExibir projetoAtivo filtroAtivo ts).Pairwise
        (fun a b => (a.concluida = false ∧ b.concluida = true)
          ∨ (a.concluida = b.concluida
              ∧ valorPrioridade b.prioridade ≤ valorPrioridade a.prioridade))
    ∧ (∀ a b : Tarefa, a.concluida = b.concluida → a.prioridade = b.prioridade →
        List.Sublist [a, b] (obterTarefasFiltradas projetoAtivo filtroAtivo ts) →
        List.Sublist [a, b] (tarefasParaExibir projetoAtivo filtroAtivo ts)) := by
  refine ⟨List.mergeSort_perm _ ordemTarefa, ?_, ?_⟩
  · exact (List.sorted_mergeSort ordemTarefa_trans ordemTarefa_total _).imp
      fun h => (ordemTarefa_caracterizacao _ _).mp h
  · intro a b hc hp hsub
    refine List.pair_sublist_mergeSort ordemTarefa_trans ordemTarefa_total ?_ hsub
    exact (ordemTarefa_caracterizacao a b).mpr (Or.inr ⟨hc, by rw [hp]⟩)

/-- Witness for C2: two equal-priority pending tasks keep their order. -/
theorem renderizar_ordenacao_espec_witness :
    List.Sublist
      [(⟨"t1", "A", "", "", Prioridade.media, none, false, "d"⟩ : Tarefa),
       (⟨"t2", "B", "", "", Prioridade.media, none, false, "d"⟩ : Tarefa)]
      (tarefasParaExibir "todos" "todas"
          [⟨"t1", "A", "", "", Prioridade.media, none, false, "d"⟩,
           ⟨"t2", "B", "", "", Prioridade.media, none, false, "d"⟩]) :=
  (renderizar_ordenacao_espec "todos" "todas"
    [⟨"t1", "A", "", "", Prioridade.media, none, false, "d"⟩,
     ⟨"t2", "B", "", "", Prioridade.media, none, false, "d"⟩]).2.2
    ⟨"t1", "A", "", "", Prioridade.media, none, false, "d"⟩
    ⟨"t2", "B", "", "", Prioridade.media, none, false, "d"⟩
    rfl rfl (List.Sublist.refl _)

/-! ## Project store (GerenciadorProjetos) -/

/-- Result of adicionarProjeto: the new project list and whether a
validation alert was shown. -/
structure ResultadoProjeto where
  projetos : List Projeto
  erro : Bool
deriving DecidableEq, Repr

/-- findIndex by id followed by the in-place nome assignment: rename the
first project whose id matches, leave the list unchanged when none
does. -/
def atualizarNomeProjeto (id nome : String) : List Projeto → List Projeto
  | [] => []
  | p :: resto =>
      if p.id == id then { p with nome := nome } :: resto
      else p :: atualizarNomeProjeto id nome resto

/-- GerenciadorProjetos.adicionarProjeto.  editando is the id of
projetoEditando (none in creation mode).  An empty trimmed name aborts
with an alert; a case-insensitive duplicate among the other projects
(the project being edited excluded) aborts with an alert; otherwise the
edit renames in place and the creation pushes a fresh project. -/
def adicionarProjeto (editando : Option String) (nomeInput novoId agora : String)
    (projetos : List Projeto) : ResultadoProjeto :=
  let nome := aparar nomeInput
  if nome = "" then
    ⟨projetos, true⟩
  else
    let existente := projetos.find? (fun p =>
      minusculas p.nome == minusculas nome &&
        (match editando with | none => true | some eid => p.id != eid))
    if existente.isSome then
      ⟨projetos, true⟩
    else
      match editando with
      | some eid => ⟨atualizarNomeProjeto eid nome projetos, false⟩
      | none => ⟨projetos ++ [⟨novoId, nome, agora⟩], false⟩

/-- Result of removerProjeto: both lists and whether the confirm dialog
was shown. -/
structure ResultadoRemocao where
  projetos : List Projeto
  tarefas : List Tarefa
  pediuConfirmacao : Bool
deriving DecidableEq, Repr

/-- findIndex by id followed by splice(indice, 1): remove the first
project whose id matches, leave the list unchanged when none does. -/
def removerPrimeiroProjeto (id : String) : List Projeto → List Projeto
  | [] => []
  | p :: resto => if p.id == id then resto else p :: removerPrimeiroProjeto id resto

/-- GerenciadorProjetos.removerProjeto: no-op if the id is unknown; asks
for confirmation (confirmarResposta) only when associated tasks exist;
on confirmation nulls projetoId on every associated task and removes
the project. -/
def removerProjeto (id : String) (confirmarResposta : Bool)
    (projetos : List Projeto) (tarefas : List Tarefa) : ResultadoRemocao :=
  match projetos.find? (fun p => p.id == id) with
  | none => ⟨projetos, tarefas, false⟩
  | some _ =>
      let associadas := tarefas.filter (fun t => t.projetoId == some id)
      let pediu := !associadas.isEmpty
      let confirmar := if pediu then confirmarResposta else true
      if confirmar then
        ⟨removerPrimeiroProjeto id projetos,
          tarefas.map (fun t =>
            if t.projetoId == some id then { t with projetoId := none } else t),
          pediu⟩
      else
        ⟨projetos, tarefas, pediu⟩

/-- Case-insensitive uniqueness of project names (the invariant of the
project store). -/
def nomesUnicos (projetos : List Projeto) : Prop :=
  (projetos.map (fun p => minusculas p.nome)).Nodup

instance (projetos : List Projeto) : Decidable (nomesUnicos projetos) := by
  unfold nomesUnicos
  infer_instance

theorem removerPrimeiroProjeto_ids (i : String) :
    ∀ l : List Projeto, (l.map Projeto.id).Nodup → i ∈ l.map Projeto.id →
      ∀ q ∈ removerPrimeiroProjeto i l, q.id ≠ i := by
  intro l
  induction l with
  | nil => intro _ hi; simp at hi
  | cons p resto ih =>
      intro hn hi q hq
      rw [List.map_cons, List.nodup_cons] at hn
      by_cases h : p.id = i
      · have hq' : q ∈ resto := by
          simpa [removerPrimeiroProjeto, h] using hq
        intro hqi
        exact hn.1 (h ▸ hqi ▸ List.mem_map_of_mem Projeto.id hq')
      · have hbeq : (p.id == i) = false := by simp [h]
        rw [removerPrimeiroProjeto, if_neg (by simp [h])] at hq
        rcases List.mem_cons.mp hq with rfl | hq'
        · exact h
        · have hi' : i ∈ resto.map Projeto.id := by
            rw [List.map_cons, List.mem_cons] at hi
            rcases hi with h' | h'
            · exact absurd h'.symm h
            · exact h'
          exact ih hn.2 hi' q hq'

/-- C3: deleting a project p present in the store, on confirmation,
nulls projetoId on exactly the tasks that referenced p (every other
task unchanged, in the map form) and removes p from the project list;
when no task references p the confirm dialog is not shown and the
deletion still proceeds. -/
theorem remover_projeto_espec (p : Projeto) (conf : Bool) (projetos : List Projeto)
    (tarefas : List Tarefa) (hids : (projetos.map Projeto.id).Nodup) (hp : p ∈ projetos) :
    ((removerProjeto p.id true projetos tarefas).tarefas
        = tarefas.map (fun t =>
            if t.projetoId == some p.id then { t with projetoId := none } else t))
    ∧ (∀ q ∈ (removerProjeto p.id true projetos tarefas).projetos, q.id ≠ p.id)
    ∧ p ∉ (removerProjeto p.id true projetos tarefas).projetos
    ∧ (tarefas.filter (fun t => t.projetoId == some p.id) = [] →
        (removerProjeto p.id conf projetos tarefas).pediuConfirmacao = false
        ∧ (removerProjeto p.id conf projetos tarefas).projetos
            = removerPrimeiroProjeto p.id projetos
        ∧ p ∉ (removerProjeto p.id conf projetos tarefas).projetos) := by
  have hmem : p.id ∈ projetos.map Projeto.id := List.mem_map_of_mem Projeto.id hp
  have hsome : (projetos.find? (fun q => q.id == p.id)).isSome := by
    rw [List.find?_isSome]
    exact ⟨p, hp, by simp⟩
  obtain ⟨q₀, hq₀⟩ := Option.isSome_iff_exists.mp hsome
  have hnotmem : ∀ q ∈ removerPrimeiroProjeto p.id projetos, q.id ≠ p.id :=
    removerPrimeiroProjeto_ids p.id projetos hids hmem
  have hpnotin : p ∉ removerPrimeiroProjeto p.id projetos := fun hin =>
    hnotmem p hin rfl
  refine ⟨?_, ?_, ?_, ?_⟩
  · simp [removerProjeto, hq₀]
  · simpa [removerProjeto, hq₀] using hnotmem
  · simpa [removerProjeto, hq₀] using hpnotin
  · intro hfil
    have hvazio : (tarefas.filter (fun t => t.projetoId == some p.id)).isEmpty = true := by
      rw [hfil]; rfl
    refine ⟨?_, ?_, ?_⟩
    · simp [removerProjeto, hq₀, hvazio]
    · simp [removerProjeto, hq₀, hvazio]
    · simpa [removerProjeto, hq₀, hvazio] using hpnotin

/-- Witness for C3 at a concrete store. -/
theorem remover_projeto_espec_witness :
    (removerProjeto "p1" true [⟨"p1", "Home", "d"⟩, ⟨"p2", "Work", "d"⟩]
        [⟨"t1", "A", "", "", Prioridade.media, some "p1", false, "d"⟩,
         ⟨"t2", "B", "", "", Prioridade.media, some "p2", false, "d"⟩]).tarefas
      = [⟨"t1", "A", "", "", Prioridade.media, none, false, "d"⟩,
         ⟨"t2", "B", "", "", Prioridade.media, some "p2", false, "d"⟩]
    ∧ (⟨"p1", "Home", "d"⟩ : Projeto)
        ∉ (removerProjeto "p1" true [⟨"p1", "Home", "d"⟩, ⟨"p2", "Work", "d"⟩]
            [⟨"t1", "A", "", "", Prioridade.media, some "p1", false, "d"⟩,
             ⟨"t2", "B", "", "", Prioridade.media, some "p2", false, "d"⟩]).projetos := by
  have h := remover_projeto_espec ⟨"p1", "Home", "d"⟩ false
    [⟨"p1", "Home", "d"⟩, ⟨"p2", "Work", "d"⟩]
    [⟨"t1", "A", "", "", Prioridade.media, some "p1", false, "d"⟩,
     ⟨"t2", "B", "", "", Prioridade.media, some "p2", false, "d"⟩]
    (by decide) (by decide)
  refine ⟨?_, h.2.2.1⟩
  rw [h.1]
  decide

theorem nodup_map_distinto {f : Projeto → String} {l : List Projeto}
    (h : (l.map f).Nodup) {p q : Projeto} (hp : p ∈ l) (hq : q ∈ l) (hne : p ≠ q) :
    f p ≠ f q := by
  have hpw : l.Pairwise (fun a b => f a ≠ f b) := List.pairwise_map.mp h
  exact hpw.forall (fun _ _ hab => Ne.symm hab) hp hq hne

theorem id_injetivo {l : List Projeto} (h : (l.map Projeto.id).Nodup)
    {p q : Projeto} (hp : p ∈ l) (hq : q ∈ l) (hid : p.id = q.id) : p = q := by
  by_contra hne
  exact nodup_map_distinto h hp hq hne hid

theorem mem_map_atualizarNome (eid nome : String) :
    ∀ (l : List Projeto) (s : String),
      s ∈ (atualizarNomeProjeto eid nome l).map (fun p => minusculas p.nome) →
      s = minusculas nome ∨ s ∈ l.map (fun p => minusculas p.nome) := by
  intro l
  induction l with
  | nil => intro s hs; simp [atualizarNomeProjeto] at hs
  | cons p resto ih =>
      intro s hs
      by_cases h : p.id = eid
      · rw [atualizarNomeProjeto, if_pos (by simp [h])] at hs
        rw [List.map_cons, List.mem_cons] at hs
        rcases hs with rfl | hs
        · exact Or.inl rfl
        · right; rw [List.map_cons, List.mem_cons]; exact Or.inr hs
      · rw [atualizarNomeProjeto, if_neg (by simp [h])] at hs
        rw [List.map_cons, List.mem_cons] at hs
        rcases hs with rfl | hs
        · right; rw [List.map_cons, List.mem_cons]; exact Or.inl rfl
        · rcases ih s hs with h' | h'
          · exact Or.inl h'
          · right; rw [List.map_cons, List.mem_cons]; exact Or.inr h'

theorem nodup_atualizarNome (eid nome : String) :
    ∀ l : List Projeto, (l.map Projeto.id).Nodup →
      (l.map (fun p => minusculas p.nome)).Nodup →
      (∀ q ∈ l, q.id ≠ eid → minusculas q.nome ≠ minusculas nome) →
      ((atualizarNomeProjeto eid nome l).map (fun p => minusculas p.nome)).Nodup := by
  intro l
  induction l with
  | nil => intro _ _ _; simp [atualizarNomeProjeto]
  | cons p resto ih =>
      intro hids hnomes hq
      rw [List.map_cons, List.nodup_cons] at hids hnomes
      by_cases h : p.id = eid
      · rw [atualizarNomeProjeto, if_pos (by simp [h])]
        rw [List.map_cons, List.nodup_cons]
        refine ⟨?_, hnomes.2⟩
        intro hmem
        rw [List.mem_map] at hmem
        obtain ⟨q, hq', he⟩ := hmem
        have hqid : q.id ≠ eid := fun hqe => by
          have hmem' : q.id ∈ resto.map Projeto.id := List.mem_map_of_mem Projeto.id hq'
          rw [hqe, ← h] at hmem'
          exact hids.1 hmem'
        exact hq q (List.mem_cons_of_mem p hq') hqid he
      · rw [atualizarNomeProjeto, if_neg (by simp [h])]
        rw [List.map_cons, List.nodup_cons]
        constructor
        · intro hmem
          rcases mem_map_atualizarNome eid nome resto _ hmem with h' | h'
          · exact hq p (List.mem_cons_self p resto) h h'
          · exact hnomes.1 h'
        · exact ih hids.2 hnomes.2 fun q hq' hqe => hq q (List.mem_cons_of_mem p hq') hqe

theorem atualizarNome_proprio (i nome : String) :
    ∀ l : List Projeto, (∀ q ∈ l, q.id = i → q.nome = nome) →
      atualizarNomeProjeto i nome l = l := by
  intro l
  induction l with
  | nil => intro _; rfl
  | cons p resto ih =>
      intro h
      by_cases hp : p.id = i
      · rw [atualizarNomeProjeto, if_pos (by simp [hp])]
        have hnp : p.nome = nome := h p (List.mem_cons_self p resto) hp
        have he : ({ p with nome := nome } : Projeto) = p := by
          obtain ⟨pid, pnome, pdata⟩ := p
          simp_all
        rw [he]
      · rw [atualizarNomeProjeto, if_neg (by simp [hp])]
        rw [ih fun q hq hqe => h q (List.mem_cons_of_mem p hq) hqe]

theorem adicionarProjeto_cria (nomeInput novoId agora : String) (projetos : List Projeto)
    (h1 : aparar nomeInput ≠ "")
    (hdiff : ∀ q ∈ projetos, minusculas q.nome ≠ minusculas (aparar nomeInput)) :
    adicionarProjeto none nomeInput novoId agora projetos
      = ⟨projetos ++ [⟨novoId, aparar nomeInput, agora⟩], false⟩ := by
  have hfind : projetos.find?
      (fun p => minusculas p.nome == minusculas (aparar nomeInput)) = none :=
    List.find?_eq_none.mpr fun p hp => by simp [hdiff p hp]
  simp [adicionarProjeto, h1, hfind]

theorem adicionarProjeto_rejeita (nomeInput novoId agora : String) (projetos : List Projeto)
    (h1 : aparar nomeInput ≠ "")
    (hdup : ∃ p ∈ projetos, minusculas p.nome = minusculas (aparar nomeInput)) :
    adicionarProjeto none nomeInput novoId agora projetos = ⟨projetos, true⟩ := by
  obtain ⟨p, hp, he⟩ := hdup
  have hsome : (projetos.find?
      (fun p => minusculas p.nome == minusculas (aparar nomeInput))).isSome := by
    rw [List.find?_isSome]
    exact ⟨p, hp, by simp [he]⟩
  obtain ⟨q, hq⟩ := Option.isSome_iff_exists.mp hsome
  simp [adicionarProjeto, h1, hq]

theorem adicionarProjeto_renomeia (eid nomeInput novoId agora : String)
    (projetos : List Projeto) (h1 : aparar nomeInput ≠ "")
    (hdiff : ∀ q ∈ projetos, q.id ≠ eid → minusculas q.nome ≠ minusculas (aparar nomeInput)) :
    adicionarProjeto (some eid) nomeInput novoId agora projetos
      = ⟨atualizarNomeProjeto eid (aparar nomeInput) projetos, false⟩ := by
  have hfind : projetos.find?
      (fun p => minusculas p.nome == minusculas (aparar nomeInput) && p.id != eid) = none :=
    List.find?_eq_none.mpr fun p hp => by
      by_cases hpe : p.id = eid
      · simp [hpe]
      · simp [hdiff p hp hpe]
  simp [adicionarProjeto, h1, hfind]

theorem adicionarProjeto_rejeita_edicao (eid nomeInput novoId agora : String)
    (projetos : List Projeto) (h1 : aparar nomeInput ≠ "")
    (hdup : ∃ p ∈ projetos, p.id ≠ eid ∧ minusculas p.nome = minusculas (aparar nomeInput)) :
    adicionarProjeto (some eid) nomeInput novoId agora projetos = ⟨projetos, true⟩ := by
  obtain ⟨p, hp, hpe, he⟩ := hdup
  have hsome : (projetos.find?
      (fun p => minusculas p.nome == minusculas (aparar nomeInput) && p.id != eid)).isSome := by
    rw [List.find?_isSome]
    exact ⟨p, hp, by simp [he, hpe]⟩
  obtain ⟨q, hq⟩ := Option.isSome_iff_exists.mp hsome
  simp [adicionarProjeto, h1, hq]

/-- C5: adicionarProjeto preserves case-insensitive uniqueness of
project names in both modes; a creation whose trimmed name matches an
existing name up to case is rejected with an error and leaves the list
unchanged; and the uniqueness check excludes the project being edited,
so a project may be renamed to its own (trimmed) name without error. -/
theorem adicionar_projeto_unicidade :
    (∀ (editando : Option String) (nomeInput novoId agora : String) (projetos : List Projeto),
        (projetos.map Projeto.id).Nodup → nomesUnicos projetos →
        nomesUnicos (adicionarProjeto editando nomeInput novoId agora projetos).projetos)
    ∧ (∀ (nomeInput novoId agora : String) (projetos : List Projeto),
        aparar nomeInput ≠ "" →
        (∃ p ∈ projetos, minusculas p.nome = minusculas (aparar nomeInput)) →
        adicionarProjeto none nomeInput novoId agora projetos = ⟨projetos, true⟩)
    ∧ (∀ (p : Projeto) (novoId agora : String) (projetos : List Projeto),
        (projetos.map Projeto.id).Nodup → nomesUnicos projetos → p ∈ projetos →
        p.nome ≠ "" → aparar p.nome = p.nome →
        adicionarProjeto (some p.id) p.nome novoId agora projetos = ⟨projetos, false⟩) := by
  refine ⟨?_, adicionarProjeto_rejeita, ?_⟩
  · intro editando nomeInput novoId agora projetos hids hnomes
    by_cases h1 : aparar nomeInput = ""
    · simpa [adicionarProjeto, h1] using hnomes
    · cases editando with
      | none =>
          by_cases hdup : ∃ p ∈ projetos, minusculas p.nome = minusculas (aparar nomeInput)
          · rw [adicionarProjeto_rejeita nomeInput novoId agora projetos h1 hdup]
            exact hnomes
          · push_neg at hdup
            rw [adicionarProjeto_cria nomeInput novoId agora projetos h1 hdup]
            show ((projetos ++ [(⟨novoId, aparar nomeInput, agora⟩ : Projeto)]).map
              (fun p : Projeto => minusculas p.nome)).Nodup
            rw [List.map_append, List.nodup_append]
            refine ⟨hnomes, List.nodup_singleton _, ?_⟩
            intro s hs hs'
            rw [List.map_singleton, List.mem_singleton] at hs'
            rw [List.mem_map] at hs
            obtain ⟨q, hq, rfl⟩ := hs
            exact hdup q hq hs'
      | some eid =>
          by_cases hdup : ∃ p ∈ projetos,
              p.id ≠ eid ∧ minusculas p.nome = minusculas (aparar nomeInput)
          · rw [adicionarProjeto_rejeita_edicao eid nomeInput novoId agora projetos h1 hdup]
            exact hnomes
          · push_neg at hdup
            rw [adicionarProjeto_renomeia eid nomeInput novoId agora projetos h1 hdup]
            exact nodup_atualizarNome eid (aparar nomeInput) projetos hids hnomes hdup
  · intro p novoId agora projetos hids hnomes hp hnvazio haparar
    have h1 : aparar p.nome ≠ "" := by rw [haparar]; exact hnvazio
    have hdiff : ∀ q ∈ projetos, q.id ≠ p.id →
        minusculas q.nome ≠ minusculas (aparar p.nome) := by
      rw [haparar]
      intro q hq hqid he
      have hqp : q ≠ p := fun h => hqid (by rw [h])
      exact nodup_map_distinto hnomes hq hp hqp he
    rw [adicionarProjeto_renomeia p.id p.nome novoId agora projetos h1 hdiff, haparar,
      atualizarNome_proprio p.id p.nome projetos
        fun q hq hqe => by rw [id_injetivo hids hq hp hqe]]

/-- Witness for C5: creating "Work" next to "Casa" keeps names unique;
creating "work" next to "Work" is rejected; renaming "Work" to itself
succeeds. -/
theorem adicionar_projeto_unicidade_witness :
    nomesUnicos (adicionarProjeto none "Work" "p9" "d" [⟨"p1", "Casa", "d"⟩]).projetos
    ∧ adicionarProjeto none "work" "p9" "d" [⟨"p1", "Work", "d"⟩]
        = ⟨[⟨"p1", "Work", "d"⟩], true⟩
    ∧ adicionarProjeto (some "p1") "Work" "p9" "d" [⟨"p1", "Work", "d"⟩]
        = ⟨[⟨"p1", "Work", "d"⟩], false⟩ := by
  refine ⟨?_, ?_, ?_⟩
  · exact adicionar_projeto_unicidade.1 none "Work" "p9" "d" [⟨"p1", "Casa", "d"⟩]
      (by decide) (by decide)
  · exact adicionar_projeto_unicidade.2.1 "work" "p9" "d" [⟨"p1", "Work", "d"⟩]
      (by decide) ⟨⟨"p1", "Work", "d"⟩, by decide, by decide⟩
  · exact adicionar_projeto_unicidade.2.2 ⟨"p1", "Work", "d"⟩ "p9" "d"
      [⟨"p1", "Work", "d"⟩] (by decide) (by decide) (by decide) (by decide) (by decide)

theorem atualizarNome_decomp (i nome : String) (pre : List Projeto) (p : Projeto)
    (post : List Projeto) (hpre : ∀ q ∈ pre, q.id ≠ i) (hp : p.id = i) :
    atualizarNomeProjeto i nome (pre ++ p :: post)
      = pre ++ { p with nome := nome } :: post := by
  induction pre with
  | nil => simp [atualizarNomeProjeto, hp]
  | cons u resto ih =>
      have hu : (u.id == i) = false := by
        simp [hpre u (List.mem_cons_self u resto)]
      simp [atualizarNomeProjeto, hu]
      exact ih fun v hv => hpre v (List.mem_cons_of_mem u hv)

/-- C10: a successful rename changes only the nome field of the edited
project: its id and dataCriacao are kept, and every other project and
the stored order are unchanged. -/
theorem renomear_projeto_frame (pre post : List Projeto) (p : Projeto)
    (nomeInput novoId agora : String) (h1 : aparar nomeInput ≠ "")
    (hdiff : ∀ q ∈ pre ++ p :: post, q.id ≠ p.id →
        minusculas q.nome ≠ minusculas (aparar nomeInput))
    (hpre : ∀ q ∈ pre, q.id ≠ p.id) :
    (adicionarProjeto (some p.id) nomeInput novoId agora (pre ++ p :: post)).projetos
      = pre ++ { p with nome := aparar nomeInput } :: post
    ∧ ({ p with nome := aparar nomeInput } : Projeto).id = p.id
    ∧ ({ p with nome := aparar nomeInput } : Projeto).dataCriacao = p.dataCriacao := by
  rw [adicionarProjeto_renomeia p.id nomeInput novoId agora (pre ++ p :: post) h1 hdiff]
  exact ⟨atualizarNome_decomp p.id (aparar nomeInput) pre p post hpre rfl, rfl, rfl⟩

/-- Witness for C10 at a concrete store. -/
theorem renomear_projeto_frame_witness :
    (adicionarProjeto (some "p2") "Novo Nome" "p9" "d"
        [⟨"p1", "Casa", "c1"⟩, ⟨"p2", "Work", "c2"⟩, ⟨"p3", "Trip", "c3"⟩]).projetos
      = [⟨"p1", "Casa", "c1"⟩, ⟨"p2", "Novo Nome", "c2"⟩, ⟨"p3", "Trip", "c3"⟩] := by
  have h := renomear_projeto_frame [⟨"p1", "Casa", "c1"⟩] [⟨"p3", "Trip", "c3"⟩]
    ⟨"p2", "Work", "c2"⟩ "Novo Nome" "p9" "d" (by decide) (by decide) (by decide)
  simpa using h.1
